import Mathlib

/-!
Verification of the claude-worktrees core: a shallow embedding in Lean 4 of
the worktree branch-lifecycle manager (`internal/worktree`), its persistent
state store, the pty session registry (`internal/pty`), and the session ring
buffer, together with proofs settling the frozen behavioural claims.

Conventions of the embedding:
* Go strings are modelled as Lean `String` / `List Char` (Unicode text).
* Timestamps (`time.Time`) are modelled as `Nat` (nanoseconds since epoch).
* Go maps (`map[string]*Agent`, `map[string]*Session`) are modelled as
  insertion-ordered association lists with unique keys; map assignment
  replaces the entry for an existing key.
* External effects (git subprocess calls, the filesystem, process spawning)
  are modelled by explicit environments recording each call's outcome, and
  operations return the list of commands issued plus the list of state
  snapshots persisted.
-/

namespace CWT

/-! ## Data model (`internal/worktree/state.go`) -/

/-- Agent as persisted (`type Agent struct`); `MergedAt *time.Time` with
`omitempty` becomes `Option Nat`. -/
structure Agent where
  id : String
  branch : String
  worktree : String
  task : String
  status : String
  baseBranch : String
  baseCommit : String
  createdAt : Nat
  mergedAt : Option Nat
  deriving Repr, DecidableEq

/-- MergeRecord as persisted (`type MergeRecord struct`). -/
structure MergeRecord where
  agentId : String
  mergedAt : Nat
  mergeCommit : String
  conflictsResolved : Int
  conflictsEscalated : Int
  deriving Repr, DecidableEq

/-- Persistent state (`type State struct`); the `Agents` map is modelled as an
association list with unique keys. -/
structure State where
  version : String
  repoRoot : String
  worktreeDir : String
  agents : List (String × Agent)
  mergeHistory : List MergeRecord
  deriving Repr, DecidableEq

def statusPending : String := "pending"
def statusRunning : String := "running"
def statusCompleted : String := "completed"
def statusMerging : String := "merging"
def statusMerged : String := "merged"
def statusFailed : String := "failed"

/-- `NewState`: fresh empty state for a repository. -/
def newState (repoRoot : String) : State :=
  { version := "1.0"
    repoRoot := repoRoot
    worktreeDir := ".worktrees"
    agents := []
    mergeHistory := [] }

/-- Map assignment `m[k] = a`: replace the entry for `k` if present, else
append. -/
def setKey (l : List (String × Agent)) (k : String) (a : Agent) :
    List (String × Agent) :=
  match l with
  | [] => [(k, a)]
  | (k', a') :: rest =>
      if k' = k then (k, a) :: rest else (k', a') :: setKey rest k a

/-- `State.GetAgent`: map lookup. -/
def State.getAgent (s : State) (id : String) : Option Agent :=
  (s.agents.find? (fun kv => kv.1 == id)).map Prod.snd

/-- `State.AddAgent`: `s.Agents[agent.ID] = agent`. -/
def State.addAgent (s : State) (a : Agent) : State :=
  { s with agents := setKey s.agents a.id a }

/-- `State.RemoveAgent`: `delete(s.Agents, id)`. -/
def State.removeAgent (s : State) (id : String) : State :=
  { s with agents := s.agents.filter (fun kv => !(kv.1 == id)) }

/-- In Go the manager mutates the `*Agent` stored in the map in place; here
the entry for `id` is updated with `f`. -/
def State.mapAgent (s : State) (id : String) (f : Agent → Agent) : State :=
  { s with agents := s.agents.map (fun kv => if kv.1 = id then (kv.1, f kv.2) else kv) }

/-! ## `slugify` (`internal/worktree/manager.go`)

`slugify` lower-cases the task, replaces runs of characters outside `[a-z0-9]`
with a single dash (the regex `[^a-z0-9]+`), trims leading/trailing dashes,
and truncates to 30 bytes.  Go's `strings.ToLower` applies the Unicode
per-rune lowercase mapping; it is abstracted here as a parameter
`low : Char → Char`, so every theorem below holds for any such mapping. -/

/-- Membership in the regex class `[a-z0-9]`. -/
def isLowerAlnum (c : Char) : Bool :=
  ('a' ≤ c && c ≤ 'z') || ('0' ≤ c && c ≤ '9')

/-- `regexp.MustCompile([^a-z0-9]+).ReplaceAllString(s, "-")`: each maximal
run of characters outside the class becomes a single `'-'`. -/
def replaceRunsAux : Bool → List Char → List Char
  | _, [] => []
  | inRun, c :: rest =>
      if isLowerAlnum c then c :: replaceRunsAux false rest
      else if inRun then replaceRunsAux true rest
      else '-' :: replaceRunsAux true rest

/-- The regex replacement as a single left-to-right pass; `inRun = false`
initially since no run is open at the start of the string. -/
def replaceRuns (l : List Char) : List Char :=
  replaceRunsAux false l

/-- `strings.Trim(s, "-")`. -/
def trimDashes (l : List Char) : List Char :=
  ((l.dropWhile (· == '-')).reverse.dropWhile (· == '-')).reverse

/-- The value of the slug just before the final truncation step. -/
def preTrunc (low : Char → Char) (s : String) : List Char :=
  trimDashes (replaceRuns (s.data.map low))

/-- `if len(s) > 30 `{` s = s[:30] `}` (all characters are single-byte at this
point, so byte truncation is character truncation). -/
def truncate30 (l : List Char) : List Char :=
  if 30 < l.length then l.take 30 else l

/-- `slugify`, as composed in the source. -/
def slugify (low : Char → Char) (s : String) : String :=
  ⟨truncate30 (preTrunc low s)⟩

/-! ### Lemmas about `slugify` -/

theorem mem_replaceRunsAux (l : List Char) :
    ∀ (inRun : Bool), ∀ c ∈ replaceRunsAux inRun l, isLowerAlnum c = true ∨ c = '-' := by
  induction l with
  | nil => intro inRun c hc; simp [replaceRunsAux] at hc
  | cons a l ih =>
      intro inRun c hc
      rw [replaceRunsAux] at hc
      by_cases ha : isLowerAlnum a = true
      · rw [if_pos ha] at hc
        rcases List.mem_cons.mp hc with rfl | hc
        · exact Or.inl ha
        · exact ih false c hc
      · rw [if_neg ha] at hc
        cases inRun with
        | true => simpa using ih true c (by simpa using hc)
        | false =>
            rcases List.mem_cons.mp (by simpa using hc) with rfl | hc'
            · exact Or.inr rfl
            · exact ih true c hc'

theorem mem_replaceRuns (l : List Char) :
    ∀ c ∈ replaceRuns l, isLowerAlnum c = true ∨ c = '-' :=
  mem_replaceRunsAux l false

theorem head?_dropWhile_not (p : Char → Bool) (l : List Char) :
    ∀ c, (l.dropWhile p).head? = some c → p c = false := by
  induction l with
  | nil => intro c h; simp at h
  | cons a l ih =>
      intro c h
      by_cases hp : p a = true
      · rw [List.dropWhile_cons_of_pos hp] at h
        exact ih c h
      · rw [List.dropWhile_cons_of_neg hp] at h
        simp only [List.head?_cons, Option.some.injEq] at h
        subst h
        exact Bool.eq_false_iff.mpr hp

theorem head?_replaceRunsAux_true (l : List Char) :
    ∀ y, (replaceRunsAux true l).head? = some y → isLowerAlnum y = true := by
  induction l with
  | nil => intro y h; simp [replaceRunsAux] at h
  | cons c rest ih =>
      intro y h
      rw [replaceRunsAux] at h
      by_cases hc : isLowerAlnum c = true
      · rw [if_pos hc] at h
        simp only [List.head?_cons, Option.some.injEq] at h
        subst h
        exact hc
      · rw [if_neg hc] at h
        exact ih y (by simpa using h)

theorem alnum_ne_dash {c : Char} (h : isLowerAlnum c = true) : c ≠ '-' := by
  intro hc
  subst hc
  simp [isLowerAlnum] at h

theorem chain'_replaceRunsAux (l : List Char) :
    ∀ inRun, List.Chain' (fun a b => ¬(a = '-' ∧ b = '-')) (replaceRunsAux inRun l) := by
  induction l with
  | nil => intro inRun; simp [replaceRunsAux]
  | cons c rest ih =>
      intro inRun
      rw [replaceRunsAux]
      by_cases hc : isLowerAlnum c = true
      · rw [if_pos hc]
        refine List.chain'_cons'.mpr ⟨?_, ih false⟩
        intro y _ hy
        exact alnum_ne_dash hc hy.1
      · rw [if_neg hc]
        cases inRun with
        | true => simpa using ih true
        | false =>
            simp only [Bool.false_eq_true, if_false]
            refine List.chain'_cons'.mpr ⟨?_, ih true⟩
            intro y hy hcontra
            exact alnum_ne_dash (head?_replaceRunsAux_true rest y hy) hcontra.2

theorem chain'_replaceRuns (l : List Char) :
    List.Chain' (fun a b => ¬(a = '-' ∧ b = '-')) (replaceRuns l) :=
  chain'_replaceRunsAux l false

theorem chain'_noDD_reverse {l : List Char}
    (h : List.Chain' (fun a b => ¬(a = '-' ∧ b = '-')) l) :
    List.Chain' (fun a b => ¬(a = '-' ∧ b = '-')) l.reverse := by
  rw [List.chain'_reverse]
  exact h.imp (fun a b hab hba => hab ⟨hba.2, hba.1⟩)

theorem chain'_trimDashes {l : List Char}
    (h : List.Chain' (fun a b => ¬(a = '-' ∧ b = '-')) l) :
    List.Chain' (fun a b => ¬(a = '-' ∧ b = '-')) (trimDashes l) := by
  unfold trimDashes
  exact chain'_noDD_reverse
    (((chain'_noDD_reverse (h.suffix (List.dropWhile_suffix _))).suffix
      (List.dropWhile_suffix _)))

theorem mem_trimDashes {l : List Char} {c : Char} (h : c ∈ trimDashes l) : c ∈ l := by
  unfold trimDashes at h
  rw [List.mem_reverse] at h
  have h1 := (List.dropWhile_sublist (l := (l.dropWhile (· == '-')).reverse) (· == '-')).subset h
  rw [List.mem_reverse] at h1
  exact (List.dropWhile_sublist (l := l) (· == '-')).subset h1

theorem getLast?_trimDashes_ne_dash (l : List Char) :
    (trimDashes l).getLast? ≠ some '-' := by
  unfold trimDashes
  rw [List.getLast?_reverse]
  intro h
  have := head?_dropWhile_not _ _ _ h
  simp at this

theorem getLast?_of_suffix_ne_nil {α : Type} {m n : List α} (h : m <:+ n) (hm : m ≠ []) :
    m.getLast? = n.getLast? := by
  obtain ⟨t, rfl⟩ := h
  exact (List.getLast?_append_of_ne_nil _ hm).symm

theorem head?_trimDashes_ne_dash (l : List Char) :
    (trimDashes l).head? ≠ some '-' := by
  unfold trimDashes
  rw [List.head?_reverse]
  intro h
  have hm : (List.dropWhile (· == '-') (l.dropWhile (· == '-')).reverse) ≠ [] := by
    intro he
    rw [he] at h
    simp at h
  rw [getLast?_of_suffix_ne_nil (List.dropWhile_suffix _) hm, List.getLast?_reverse] at h
  have := head?_dropWhile_not _ _ _ h
  simp at this

theorem length_truncate30 (l : List Char) : (truncate30 l).length ≤ max l.length 30 := by
  unfold truncate30
  split
  · simp
  · simp

/-- C5: for every task string, even empty or containing Unicode or
punctuation, the task-derived branch suffix produced by `slugify` contains
only lowercase alphanumerics and the dash separator, has runs of
non-alphanumeric characters collapsed to a single dash (no two adjacent
dashes), has no leading or trailing dash at the pre-truncation stage, and is
at most 30 characters long.  The Unicode lowercase map is abstracted as
`low`, so the property holds for Go's `strings.ToLower` in particular. -/
theorem slugify_safe (low : Char → Char) (s : String) :
    (∀ c ∈ (slugify low s).data, isLowerAlnum c = true ∨ c = '-')
    ∧ List.Chain' (fun a b => ¬(a = '-' ∧ b = '-')) (slugify low s).data
    ∧ (preTrunc low s).head? ≠ some '-'
    ∧ (preTrunc low s).getLast? ≠ some '-'
    ∧ (slugify low s).length ≤ 30 := by
  have hdata : (slugify low s).data = truncate30 (preTrunc low s) := rfl
  have hmem : ∀ c ∈ (slugify low s).data, isLowerAlnum c = true ∨ c = '-' := by
    intro c hc
    rw [hdata] at hc
    unfold truncate30 at hc
    have hc' : c ∈ preTrunc low s := by
      split at hc
      · exact List.take_subset _ _ hc
      · exact hc
    exact mem_replaceRuns _ c (mem_trimDashes hc')
  refine ⟨hmem, ?_, head?_trimDashes_ne_dash _, getLast?_trimDashes_ne_dash _, ?_⟩
  · rw [hdata]
    unfold truncate30
    split
    · exact (chain'_trimDashes (chain'_replaceRuns _)).take _
    · exact chain'_trimDashes (chain'_replaceRuns _)
  · show (slugify low s).data.length ≤ 30
    rw [hdata]
    unfold truncate30
    split
    · simp
    · omega

/-! ## Manager operations (`internal/worktree/manager.go`)

Git subprocess calls are modelled by an environment fixing each call's
outcome; every operation returns the issued git commands and the list of
state snapshots persisted by `state.Save()` (persistence itself succeeding,
as the claims under test concern the manager logic, not the disk). -/

/-- Lowercase hex digit for a value below 16 (`encoding/hex` alphabet). -/
def hexDigit (n : Nat) : Char :=
  if n < 10 then Char.ofNat (48 + n) else Char.ofNat (87 + n)

/-- `hex.EncodeToString`: two lowercase hex digits per byte (bytes are `Nat`
values below 256). -/
def hexEncode (bs : List Nat) : String :=
  ⟨(bs.map (fun b => [hexDigit (b / 16), hexDigit (b % 16)])).flatten⟩

/-- `generateID`: `cwt-<date>-<hex suffix>`, where `date` is
`time.Now().Format("20060102")` and `randBytes` the two bytes delivered by
`crypto/rand.Read`, both passed in explicitly.  The function consults no
existing state: the source has no collision check and no regeneration. -/
def generateID (date : String) (randBytes : List Nat) : String :=
  "cwt-" ++ date ++ "-" ++ hexEncode randBytes

/-- Git commands issued by the manager, with the arguments the claims are
about. -/
inductive GitCmd
  | worktreeAdd (branch path : String)
  | worktreeRemove (force : Bool) (path : String)
  | branchDelete (force : Bool) (branch : String)
  | checkout (branch : String)
  | mergeNoFF (msg branch : String)
  deriving Repr, DecidableEq

/-- Result of a manager operation: the returned value or error, the final
in-memory state, the git commands issued and the snapshots persisted. -/
structure OpResult (α : Type) where
  res : Except String α
  state : State
  cmds : List GitCmd
  saved : List State
  deriving Repr

/-- Outcomes of the git calls made by `CreateWorktree`. -/
structure CreateEnv where
  currentBranch : Except String String
  currentCommit : Except String String
  worktreeAddOk : Bool
  saveOk : Bool

/-- `Manager.CreateWorktree`: generates the ID and branch name, reads the
base branch/commit, creates the worktree, records the agent with status
`running` and persists; on a save failure the worktree and branch are rolled
back best-effort.  `low` abstracts `strings.ToLower` inside `slugify`. -/
def Manager.createWorktree (st : State) (env : CreateEnv) (date : String)
    (randBytes : List Nat) (low : Char → Char) (task : String) (now : Nat) :
    OpResult Agent :=
  let id := generateID date randBytes
  let slug := slugify low task
  let branch := "cwt/" ++ id ++ "/" ++ slug
  let worktreePath := st.repoRoot ++ "/" ++ st.worktreeDir ++ "/" ++ id
  match env.currentBranch with
  | .error e => ⟨.error ("failed to get current branch: " ++ e), st, [], []⟩
  | .ok baseBranch =>
      match env.currentCommit with
      | .error e => ⟨.error ("failed to get current commit: " ++ e), st, [], []⟩
      | .ok baseCommit =>
          let cmds := [GitCmd.worktreeAdd branch worktreePath]
          if !env.worktreeAddOk then ⟨.error "failed to create worktree", st, cmds, []⟩
          else
            let agent : Agent :=
              { id := id, branch := branch, worktree := worktreePath, task := task
                status := statusRunning, baseBranch := baseBranch
                baseCommit := baseCommit, createdAt := now, mergedAt := none }
            let st' := st.addAgent agent
            if env.saveOk then ⟨.ok agent, st', cmds, [st']⟩
            else
              ⟨.error "failed to save state", st',
                cmds ++ [GitCmd.worktreeRemove false worktreePath,
                         GitCmd.branchDelete true branch], []⟩

/-- Outcomes of the git calls made by `RemoveWorktree` (the fallback forced
variants are always attempted on failure and their own outcome is ignored). -/
structure RemoveEnv where
  worktreeRemoveOk : Bool
  branchDeleteOk : Bool

/-- `Manager.RemoveWorktree`: `NotFound` if untracked; otherwise removes the
worktree (forcing on failure), deletes the branch (forcing on failure),
removes the agent from tracked state and persists — git failures are
tolerated and never reach the caller. -/
def Manager.removeWorktree (st : State) (env : RemoveEnv) (id : String) :
    OpResult Unit :=
  match st.getAgent id with
  | none => ⟨.error ("agent " ++ id ++ " not found"), st, [], []⟩
  | some agent =>
      let cmds1 :=
        if env.worktreeRemoveOk then [GitCmd.worktreeRemove false agent.worktree]
        else [GitCmd.worktreeRemove false agent.worktree,
              GitCmd.worktreeRemove true agent.worktree]
      let cmds2 :=
        if env.branchDeleteOk then [GitCmd.branchDelete false agent.branch]
        else [GitCmd.branchDelete false agent.branch,
              GitCmd.branchDelete true agent.branch]
      let st' := st.removeAgent id
      ⟨.ok (), st', cmds1 ++ cmds2, [st']⟩

/-- `Manager.UpdateAgentStatus`: `NotFound` if untracked; otherwise sets the
given status — any status, with no transition validation — and persists. -/
def Manager.updateAgentStatus (st : State) (id status : String) : OpResult Unit :=
  match st.getAgent id with
  | none => ⟨.error ("agent " ++ id ++ " not found"), st, [], []⟩
  | some _ =>
      let st' := st.mapAgent id (fun a => { a with status := status })
      ⟨.ok (), st', [], [st']⟩

/-- Outcomes of the git calls made by `Merge`. -/
structure MergeEnv where
  checkoutOk : Bool
  mergeOk : Bool

/-- `Manager.Merge`: `NotFound` if untracked; otherwise sets status
`merging` and persists, checks out the base branch, merges the agent branch
with `--no-ff` and message `Merge <id>: <task>`, and on success sets status
`merged` with the merge timestamp and persists again.  No merge record or
merge-commit identifier is written anywhere. -/
def Manager.merge (st : State) (env : MergeEnv) (id : String) (now : Nat) :
    OpResult Unit :=
  match st.getAgent id with
  | none => ⟨.error ("agent " ++ id ++ " not found"), st, [], []⟩
  | some agent =>
      let st1 := st.mapAgent id (fun a => { a with status := statusMerging })
      let saved1 := [st1]
      let cmds1 := [GitCmd.checkout agent.baseBranch]
      if !env.checkoutOk then
        ⟨.error "failed to checkout base branch", st1, cmds1, saved1⟩
      else
        let msg := "Merge " ++ agent.id ++ ": " ++ agent.task
        let cmds2 := cmds1 ++ [GitCmd.mergeNoFF msg agent.branch]
        if !env.mergeOk then ⟨.error "merge failed", st1, cmds2, saved1⟩
        else
          let st2 := st1.mapAgent id
            (fun a => { a with status := statusMerged, mergedAt := some now })
          ⟨.ok (), st2, cmds2, saved1 ++ [st2]⟩

/-! ### Lemmas about the state map -/

theorem find?_map_update (l : List (String × Agent)) (id : String) (f : Agent → Agent) :
    ((l.map (fun kv => if kv.1 = id then (kv.1, f kv.2) else kv)).find?
        (fun kv => kv.1 == id)).map Prod.snd
      = ((l.find? (fun kv => kv.1 == id)).map Prod.snd).map f := by
  induction l with
  | nil => rfl
  | cons kv rest ih =>
      rw [List.map_cons]
      simp only [List.find?]
      by_cases h : kv.1 = id
      · have hb : (kv.1 == id) = true := by simp [h]
        have hb' : ((if kv.1 = id then (kv.1, f kv.2) else kv).1 == id) = true := by
          rw [if_pos h]; exact hb
        simp only [hb, hb', if_pos h]
        rfl
      · have hb : (kv.1 == id) = false := by simp [h]
        have hb' : ((if kv.1 = id then (kv.1, f kv.2) else kv).1 == id) = false := by
          rw [if_neg h]; exact hb
        simp only [hb, hb']
        exact ih

theorem getAgent_mapAgent (s : State) (id : String) (f : Agent → Agent) :
    (s.mapAgent id f).getAgent id = (s.getAgent id).map f := by
  unfold State.mapAgent State.getAgent
  exact find?_map_update s.agents id f

theorem getAgent_removeAgent (s : State) (id : String) :
    (s.removeAgent id).getAgent id = none := by
  have hfind : (s.agents.filter (fun kv => !(kv.1 == id))).find?
      (fun kv => kv.1 == id) = none := by
    rw [List.find?_eq_none]
    intro kv hkv
    have h2 := (List.mem_filter.mp hkv).2
    simp at h2
    simp [h2]
  show ((s.agents.filter (fun kv => !(kv.1 == id))).find?
      (fun kv => kv.1 == id)).map Prod.snd = none
  rw [hfind]
  rfl

/-! ### Concrete fixtures used by witnesses and counterexamples -/

/-- A tracked agent in status `running`. -/
def agentRunning : Agent :=
  { id := "cwt-20260101-aaaa", branch := "cwt/cwt-20260101-aaaa/fix-bug"
    worktree := "/repo/.worktrees/cwt-20260101-aaaa", task := "fix bug"
    status := statusRunning, baseBranch := "main", baseCommit := "deadbeef"
    createdAt := 10, mergedAt := none }

/-- A tracked agent already in status `merged`. -/
def agentMerged : Agent :=
  { id := "cwt-20260101-bbbb", branch := "cwt/cwt-20260101-bbbb/add-docs"
    worktree := "/repo/.worktrees/cwt-20260101-bbbb", task := "add docs"
    status := statusMerged, baseBranch := "main", baseCommit := "deadbeef"
    createdAt := 11, mergedAt := some 42 }

/-- A sample tracked state holding both fixtures. -/
def stSample : State :=
  { version := "1.0", repoRoot := "/repo", worktreeDir := ".worktrees"
    agents := [("cwt-20260101-aaaa", agentRunning), ("cwt-20260101-bbbb", agentMerged)]
    mergeHistory := [] }

/-! ### C2: agent ID generation -/

/-- C2 (code bug): `generateID` derives the ID purely from the date and the
two random bytes; no tracked state is consulted and nothing regenerates on a
collision.  When `crypto/rand` returns the bytes `a1 b2` twice on the same
day, both `CreateWorktree` calls produce the identical ID
`cwt-20260101-a1b2` and the second call's `AddAgent` silently overwrites the
first agent's tracked record: afterwards only one agent is tracked and its
task is the second task. -/
theorem createWorktree_id_collision :
    (generateID "20260101" [161, 178] = "cwt-20260101-a1b2")
    ∧ ((Manager.createWorktree (newState "/repo")
          ⟨.ok "main", .ok "c0ffee", true, true⟩ "20260101" [161, 178]
          Char.toLower "first task" 1).state.getAgent
            "cwt-20260101-a1b2").map Agent.task = some "first task"
    ∧ ((Manager.createWorktree
          (Manager.createWorktree (newState "/repo")
            ⟨.ok "main", .ok "c0ffee", true, true⟩ "20260101" [161, 178]
            Char.toLower "first task" 1).state
          ⟨.ok "main", .ok "c0ffee", true, true⟩ "20260101" [161, 178]
          Char.toLower "second task" 2).state.getAgent
            "cwt-20260101-a1b2").map Agent.task = some "second task"
    ∧ (Manager.createWorktree
          (Manager.createWorktree (newState "/repo")
            ⟨.ok "main", .ok "c0ffee", true, true⟩ "20260101" [161, 178]
            Char.toLower "first task" 1).state
          ⟨.ok "main", .ok "c0ffee", true, true⟩ "20260101" [161, 178]
          Char.toLower "second task" 2).state.agents.length = 1 := by
  refine ⟨rfl, ?_, ?_, rfl⟩ <;> rfl

/-! ### C4: status transitions -/

/-- C4 (counterexample): `UpdateAgentStatus` happily moves a `merged` agent
back to `pending` — a backward transition the claim rules out. -/
theorem updateAgentStatus_backward :
    ((Manager.updateAgentStatus stSample "cwt-20260101-bbbb" statusPending).res
        = .ok ())
    ∧ ((Manager.updateAgentStatus stSample "cwt-20260101-bbbb"
          statusPending).state.getAgent "cwt-20260101-bbbb").map Agent.status
        = some statusPending := by
  exact ⟨rfl, rfl⟩

/-- C4 (amended): `UpdateAgentStatus` performs no transition validation at
all: for every tracked agent and every requested status string — forward,
backward, or `merged` directly — it succeeds, records exactly the requested
status, and persists the updated state. -/
theorem updateAgentStatus_no_validation (st : State) (id status : String)
    (h : (st.getAgent id).isSome = true) :
    ((Manager.updateAgentStatus st id status).res = .ok ())
    ∧ ((Manager.updateAgentStatus st id status).state.getAgent id).map
        Agent.status = some status
    ∧ (Manager.updateAgentStatus st id status).saved
        = [(Manager.updateAgentStatus st id status).state] := by
  obtain ⟨agent, ha⟩ := Option.isSome_iff_exists.mp h
  unfold Manager.updateAgentStatus
  rw [ha]
  refine ⟨rfl, ?_, rfl⟩
  rw [getAgent_mapAgent, ha]
  rfl

/-- C4 witness: the amended theorem applied to the sample state, moving the
merged agent back to `pending`. -/
theorem updateAgentStatus_no_validation_witness :
    ((Manager.updateAgentStatus stSample "cwt-20260101-bbbb" statusPending).res
        = .ok ())
    ∧ ((Manager.updateAgentStatus stSample "cwt-20260101-bbbb"
          statusPending).state.getAgent "cwt-20260101-bbbb").map Agent.status
        = some statusPending
    ∧ (Manager.updateAgentStatus stSample "cwt-20260101-bbbb"
          statusPending).saved
        = [(Manager.updateAgentStatus stSample "cwt-20260101-bbbb"
              statusPending).state] :=
  updateAgentStatus_no_validation stSample "cwt-20260101-bbbb" statusPending rfl

/-! ### C6: removeBranch -/

/-- C6: `RemoveWorktree` is idempotent with respect to tracked state and its
cleanup is best-effort: whatever the outcomes of the git worktree removal
and branch deletion (`env` ranges over all of them), the first call on a
tracked agent succeeds, removes the tracked record and persists the shrunken
state; a second call on the same ID (under any git outcomes `env'`) returns
the not-found error and changes nothing. -/
theorem removeWorktree_idempotent (st : State) (env env' : RemoveEnv)
    (id : String) (h : (st.getAgent id).isSome = true) :
    ((Manager.removeWorktree st env id).res = .ok ())
    ∧ ((Manager.removeWorktree st env id).state.getAgent id = none)
    ∧ ((Manager.removeWorktree st env id).saved
        = [(Manager.removeWorktree st env id).state])
    ∧ ((Manager.removeWorktree (Manager.removeWorktree st env id).state env'
          id).res = .error ("agent " ++ id ++ " not found"))
    ∧ ((Manager.removeWorktree (Manager.removeWorktree st env id).state env'
          id).state = (Manager.removeWorktree st env id).state) := by
  obtain ⟨agent, ha⟩ := Option.isSome_iff_exists.mp h
  have h1 : Manager.removeWorktree st env id
      = ⟨.ok (), st.removeAgent id,
          (if env.worktreeRemoveOk then [GitCmd.worktreeRemove false agent.worktree]
           else [GitCmd.worktreeRemove false agent.worktree,
                 GitCmd.worktreeRemove true agent.worktree]) ++
          (if env.branchDeleteOk then [GitCmd.branchDelete false agent.branch]
           else [GitCmd.branchDelete false agent.branch,
                 GitCmd.branchDelete true agent.branch]),
          [st.removeAgent id]⟩ := by
    unfold Manager.removeWorktree
    rw [ha]
  have hnone := getAgent_removeAgent st id
  have h2 : Manager.removeWorktree (st.removeAgent id) env' id
      = ⟨.error ("agent " ++ id ++ " not found"), st.removeAgent id, [], []⟩ := by
    unfold Manager.removeWorktree
    rw [hnone]
  rw [h1]
  exact ⟨rfl, hnone, rfl, by rw [h2], by rw [h2]⟩

/-- C6 witness: removing the running fixture agent from the sample state
with both git removal steps failing (forcing the fallbacks), then calling
again. -/
theorem removeWorktree_idempotent_witness :
    ((Manager.removeWorktree stSample ⟨false, false⟩ "cwt-20260101-aaaa").res
        = .ok ())
    ∧ ((Manager.removeWorktree stSample ⟨false, false⟩
          "cwt-20260101-aaaa").state.getAgent "cwt-20260101-aaaa" = none)
    ∧ ((Manager.removeWorktree stSample ⟨false, false⟩
          "cwt-20260101-aaaa").saved
        = [(Manager.removeWorktree stSample ⟨false, false⟩
              "cwt-20260101-aaaa").state])
    ∧ ((Manager.removeWorktree
          (Manager.removeWorktree stSample ⟨false, false⟩
            "cwt-20260101-aaaa").state ⟨true, true⟩ "cwt-20260101-aaaa").res
        = .error ("agent " ++ "cwt-20260101-aaaa" ++ " not found"))
    ∧ ((Manager.removeWorktree
          (Manager.removeWorktree stSample ⟨false, false⟩
            "cwt-20260101-aaaa").state ⟨true, true⟩ "cwt-20260101-aaaa").state
        = (Manager.removeWorktree stSample ⟨false, false⟩
            "cwt-20260101-aaaa").state) :=
  removeWorktree_idempotent stSample ⟨false, false⟩ ⟨true, true⟩
    "cwt-20260101-aaaa" rfl

/-! ### C3: merge -/

/-- C3 (counterexample): merging the running fixture agent with both git
steps succeeding returns success and reaches status `merged`, yet the merge
history — the only place the data model stores a merge identifier
(`mergeCommit`) — is left empty: no merge identifier is recorded anywhere,
refuting the claim's "records a non-empty merge identifier". -/
theorem merge_records_no_identifier :
    ((Manager.merge stSample ⟨true, true⟩ "cwt-20260101-aaaa" 99).res = .ok ())
    ∧ ((Manager.merge stSample ⟨true, true⟩ "cwt-20260101-aaaa"
          99).state.getAgent "cwt-20260101-aaaa").map Agent.status
        = some statusMerged
    ∧ (Manager.merge stSample ⟨true, true⟩ "cwt-20260101-aaaa"
          99).state.mergeHistory = [] := by
  exact ⟨rfl, rfl, rfl⟩

/-- C3 (amended): for every tracked agent, `Merge` first persists the agent
at status `merging`, then checks out the base branch and performs a
non-fast-forward merge whose message is `Merge <id>: <task>` (containing
the agent ID and task); on success it sets status `merged` with the merge
timestamp and persists a second time, and on merge failure it returns the
underlying error with the status left at `merging`.  No merge identifier is
recorded (see the counterexample). -/
theorem merge_transitions (st : State) (env : MergeEnv) (id : String)
    (now : Nat) (agent : Agent) (h : st.getAgent id = some agent) :
    ((Manager.merge st env id now).saved.head?
        = some (st.mapAgent id (fun a => { a with status := statusMerging })))
    ∧ ((Manager.merge st env id now).cmds.head?
        = some (GitCmd.checkout agent.baseBranch))
    ∧ (env.checkoutOk = true → env.mergeOk = true →
        (Manager.merge st env id now).res = .ok ()
        ∧ ((Manager.merge st env id now).state.getAgent id).map Agent.status
            = some statusMerged
        ∧ ((Manager.merge st env id now).state.getAgent id).map Agent.mergedAt
            = some (some now)
        ∧ GitCmd.mergeNoFF ("Merge " ++ agent.id ++ ": " ++ agent.task)
            agent.branch ∈ (Manager.merge st env id now).cmds
        ∧ (Manager.merge st env id now).saved
            = [st.mapAgent id (fun a => { a with status := statusMerging }),
               (Manager.merge st env id now).state])
    ∧ (env.checkoutOk = true → env.mergeOk = false →
        (Manager.merge st env id now).res = .error "merge failed"
        ∧ ((Manager.merge st env id now).state.getAgent id).map Agent.status
            = some statusMerging) := by
  have hg1 : (st.mapAgent id (fun a => { a with status := statusMerging })).getAgent id
      = some { agent with status := statusMerging } := by
    rw [getAgent_mapAgent, h]; rfl
  have hg2 : ((st.mapAgent id (fun a => { a with status := statusMerging })).mapAgent
        id (fun a => { a with status := statusMerged, mergedAt := some now })).getAgent id
      = some { agent with status := statusMerged, mergedAt := some now } := by
    rw [getAgent_mapAgent, hg1]; rfl
  obtain ⟨co, mo⟩ := env
  cases co with
  | false =>
      have e1 : Manager.merge st ⟨false, mo⟩ id now
          = ⟨.error "failed to checkout base branch",
              st.mapAgent id (fun a => { a with status := statusMerging }),
              [GitCmd.checkout agent.baseBranch],
              [st.mapAgent id (fun a => { a with status := statusMerging })]⟩ := by
        unfold Manager.merge
        rw [h]
        rfl
      rw [e1]
      exact ⟨rfl, rfl, fun hco => Bool.noConfusion hco,
        fun hco => Bool.noConfusion hco⟩
  | true =>
      cases mo with
      | false =>
          have e2 : Manager.merge st ⟨true, false⟩ id now
              = ⟨.error "merge failed",
                  st.mapAgent id (fun a => { a with status := statusMerging }),
                  [GitCmd.checkout agent.baseBranch,
                   GitCmd.mergeNoFF ("Merge " ++ agent.id ++ ": " ++ agent.task)
                     agent.branch],
                  [st.mapAgent id (fun a => { a with status := statusMerging })]⟩ := by
            unfold Manager.merge
            rw [h]
            rfl
          rw [e2]
          refine ⟨rfl, rfl, fun _ hmo => Bool.noConfusion hmo, fun _ _ => ⟨rfl, ?_⟩⟩
          rw [hg1]
          rfl
      | true =>
          have e3 : Manager.merge st ⟨true, true⟩ id now
              = ⟨.ok (),
                  (st.mapAgent id (fun a => { a with status := statusMerging })).mapAgent
                    id (fun a => { a with status := statusMerged, mergedAt := some now }),
                  [GitCmd.checkout agent.baseBranch,
                   GitCmd.mergeNoFF ("Merge " ++ agent.id ++ ": " ++ agent.task)
                     agent.branch],
                  [st.mapAgent id (fun a => { a with status := statusMerging }),
                   (st.mapAgent id (fun a => { a with status := statusMerging })).mapAgent
                     id (fun a => { a with status := statusMerged, mergedAt := some now })]⟩ := by
            unfold Manager.merge
            rw [h]
            rfl
          rw [e3]
          refine ⟨rfl, rfl, fun _ _ => ⟨rfl, ?_, ?_, ?_, rfl⟩,
            fun _ hmo => Bool.noConfusion hmo⟩
          · rw [hg2]
            rfl
          · rw [hg2]
            rfl
          · simp

/-- C3 witness: the amended theorem applied to the running fixture agent
with both git steps succeeding. -/
theorem merge_transitions_witness :
    ((Manager.merge stSample ⟨true, true⟩ "cwt-20260101-aaaa" 99).cmds.head?
        = some (GitCmd.checkout agentRunning.baseBranch))
    ∧ ((Manager.merge stSample ⟨true, true⟩ "cwt-20260101-aaaa" 99).res = .ok ()
        ∧ ((Manager.merge stSample ⟨true, true⟩ "cwt-20260101-aaaa"
              99).state.getAgent "cwt-20260101-aaaa").map Agent.status
            = some statusMerged
        ∧ ((Manager.merge stSample ⟨true, true⟩ "cwt-20260101-aaaa"
              99).state.getAgent "cwt-20260101-aaaa").map Agent.mergedAt
            = some (some 99)
        ∧ GitCmd.mergeNoFF
            ("Merge " ++ agentRunning.id ++ ": " ++ agentRunning.task)
            agentRunning.branch
            ∈ (Manager.merge stSample ⟨true, true⟩ "cwt-20260101-aaaa" 99).cmds
        ∧ (Manager.merge stSample ⟨true, true⟩ "cwt-20260101-aaaa" 99).saved
            = [stSample.mapAgent "cwt-20260101-aaaa"
                 (fun a => { a with status := statusMerging }),
               (Manager.merge stSample ⟨true, true⟩ "cwt-20260101-aaaa"
                 99).state]) :=
  ⟨(merge_transitions stSample ⟨true, true⟩ "cwt-20260101-aaaa" 99 agentRunning
      rfl).2.1,
   (merge_transitions stSample ⟨true, true⟩ "cwt-20260101-aaaa" 99 agentRunning
      rfl).2.2.1 rfl rfl⟩

/-! ## PTY sessions (`internal/pty/session.go`) and the session registry

A session's pseudo-terminal handle and child process are modelled by
`Option Bool` fields: `none` is a nil handle (never started), `some true`
an open/live one, `some false` a closed/killed one.  `Stop` closes the
handle and kills the process, discarding both results exactly as the source
does, and always returns nil. -/

structure PtySession where
  id : String
  workdir : String
  task : String
  ptyOpen : Option Bool
  procAlive : Option Bool
  deriving Repr, DecidableEq

/-- `os.File.Close` / `Process.Kill`: succeed on an open/live handle, error
on one that is already closed/dead. -/
def closeHandle (live : Bool) : Except String Unit :=
  if live then .ok () else .error "already closed"

/-- `Session.Stop`: if the pty handle is non-nil, close it (result
discarded); if the process handle is non-nil, kill it (result discarded);
return nil unconditionally. -/
def PtySession.stop (s : PtySession) : Except String Unit × PtySession :=
  let s1 :=
    match s.ptyOpen with
    | none => s
    | some live =>
        let _ := closeHandle live
        { s with ptyOpen := some false }
  let s2 :=
    match s1.procAlive with
    | none => s1
    | some live =>
        let _ := closeHandle live
        { s1 with procAlive := some false }
  (.ok (), s2)

/-- C9: `Stop` is idempotent and never errors: it returns nil on any
session — including one that was never started — and calling it again on
the already-stopped session returns nil and changes nothing further. -/
theorem session_stop_idempotent (s : PtySession) :
    s.stop.1 = .ok ()
    ∧ (s.stop.2.stop).1 = .ok ()
    ∧ (s.stop.2.stop).2 = s.stop.2 := by
  obtain ⟨id, wd, task, po, pa⟩ := s
  cases po <;> cases pa <;> exact ⟨rfl, rfl, rfl⟩

/-- `pty.Manager.Get`: map lookup in the registry. -/
def registryGet (m : List (String × PtySession)) (id : String) :
    Option PtySession :=
  (m.find? (fun kv => kv.1 == id)).map Prod.snd

/-- `NewSession` followed by a successful `Start`: open pty, live child. -/
def newSessionStarted (id workdir task : String) : PtySession :=
  { id := id, workdir := workdir, task := task
    ptyOpen := some true, procAlive := some true }

/-- `pty.Manager.Spawn`: `AlreadyExists` if the ID is registered; otherwise
construct and start a session (`startOk` is the outcome of `Start`) and
register it only when the start succeeded. -/
def Manager.spawn (m : List (String × PtySession)) (startOk : Bool)
    (id workdir task : String) :
    Except String PtySession × List (String × PtySession) :=
  match registryGet m id with
  | some _ => (.error ("session " ++ id ++ " already exists"), m)
  | none =>
      if startOk then
        let s := newSessionStarted id workdir task
        (.ok s, m ++ [(id, s)])
      else (.error "failed to start session", m)

/-- `pty.Manager.Kill`: `NotFound` if absent; otherwise stop the session
(checking its — always nil — error) and delete it from the registry. -/
def Manager.kill (m : List (String × PtySession)) (id : String) :
    Except String Unit × List (String × PtySession) :=
  match registryGet m id with
  | none => (.error ("session " ++ id ++ " not found"), m)
  | some s =>
      match s.stop.1 with
      | .error e => (.error e, m)
      | .ok () => (.ok (), m.filter (fun kv => !(kv.1 == id)))

theorem find?_filter_ne_none (m : List (String × PtySession)) (id : String) :
    (m.filter (fun kv => !(kv.1 == id))).find? (fun kv => kv.1 == id) = none := by
  rw [List.find?_eq_none]
  intro kv hkv
  have h2 := (List.mem_filter.mp hkv).2
  simp at h2
  simp [h2]

/-- C8: registry spawn/kill behaviour.  If `id` is registered, `Spawn`
returns the already-exists error and leaves the registry unchanged; if it is
absent and the session starts, the new session is returned and registered
under `id`; if the start fails, the error is returned and nothing is
registered.  `Kill` on an absent ID returns the not-found error and changes
nothing; on a present ID it stops the session and deregisters it. -/
theorem registry_spawn_kill (m : List (String × PtySession))
    (id workdir task : String) (startOk : Bool) :
    ((registryGet m id).isSome = true →
        (Manager.spawn m startOk id workdir task).1
            = .error ("session " ++ id ++ " already exists")
        ∧ (Manager.spawn m startOk id workdir task).2 = m)
    ∧ (registryGet m id = none → startOk = true →
        (Manager.spawn m startOk id workdir task).1
            = .ok (newSessionStarted id workdir task)
        ∧ (Manager.spawn m startOk id workdir task).2
            = m ++ [(id, newSessionStarted id workdir task)]
        ∧ registryGet (Manager.spawn m startOk id workdir task).2 id
            = some (newSessionStarted id workdir task))
    ∧ (registryGet m id = none → startOk = false →
        (Manager.spawn m startOk id workdir task).1
            = .error "failed to start session"
        ∧ (Manager.spawn m startOk id workdir task).2 = m)
    ∧ (registryGet m id = none →
        (Manager.kill m id).1 = .error ("session " ++ id ++ " not found")
        ∧ (Manager.kill m id).2 = m)
    ∧ (∀ s, registryGet m id = some s →
        (Manager.kill m id).1 = .ok ()
        ∧ registryGet (Manager.kill m id).2 id = none) := by
  refine ⟨?_, ?_, ?_, ?_, ?_⟩
  · intro h
    obtain ⟨s, hs⟩ := Option.isSome_iff_exists.mp h
    unfold Manager.spawn
    rw [hs]
    exact ⟨rfl, rfl⟩
  · intro h hok
    subst hok
    unfold Manager.spawn
    rw [h]
    refine ⟨rfl, rfl, ?_⟩
    show registryGet (m ++ [(id, newSessionStarted id workdir task)]) id
        = some (newSessionStarted id workdir task)
    have hfind : m.find? (fun kv => kv.1 == id) = none := by
      by_cases hf : m.find? (fun kv => kv.1 == id) = none
      · exact hf
      · obtain ⟨kv, hkv⟩ := Option.ne_none_iff_exists'.mp hf
        exact absurd (by unfold registryGet; rw [hkv]; rfl : registryGet m id
          = some kv.2) (by rw [h]; exact fun hx => Option.noConfusion hx)
    unfold registryGet
    rw [List.find?_append, hfind]
    simp
  · intro h hok
    subst hok
    unfold Manager.spawn
    rw [h]
    exact ⟨rfl, rfl⟩
  · intro h
    unfold Manager.kill
    rw [h]
    exact ⟨rfl, rfl⟩
  · intro s hs
    have hk : Manager.kill m id = (.ok (), m.filter (fun kv => !(kv.1 == id))) := by
      unfold Manager.kill
      rw [hs]
      rfl
    rw [hk]
    refine ⟨rfl, ?_⟩
    unfold registryGet
    rw [find?_filter_ne_none]
    rfl

/-- C8 witness: the theorem's five prongs applied to concrete registries —
spawning over an existing "main" session, spawning into an empty registry
with and without a successful start, and killing an absent and a present
ID. -/
theorem registry_spawn_kill_witness :
    ((Manager.spawn [("main", newSessionStarted "main" "/repo" "Main")] true
        "main" "/repo" "Main").1
      = .error ("session " ++ "main" ++ " already exists"))
    ∧ ((Manager.spawn ([] : List (String × PtySession)) true "main" "/repo"
          "Main").2 = [("main", newSessionStarted "main" "/repo" "Main")])
    ∧ ((Manager.spawn ([] : List (String × PtySession)) false "main" "/repo"
          "Main").1 = .error "failed to start session")
    ∧ ((Manager.kill ([] : List (String × PtySession)) "main").1
        = .error ("session " ++ "main" ++ " not found"))
    ∧ (registryGet
        (Manager.kill [("main", newSessionStarted "main" "/repo" "Main")]
          "main").2 "main" = none) :=
  ⟨((registry_spawn_kill [("main", newSessionStarted "main" "/repo" "Main")]
      "main" "/repo" "Main" true).1 rfl).1,
   (((registry_spawn_kill ([] : List (String × PtySession)) "main" "/repo"
      "Main" true).2.1 rfl rfl).2.1.trans (by rfl)),
   ((registry_spawn_kill ([] : List (String × PtySession)) "main" "/repo"
      "Main" false).2.2.1 rfl rfl).1,
   ((registry_spawn_kill ([] : List (String × PtySession)) "main" "/repo"
      "Main" true).2.2.2.1 rfl).1,
   ((registry_spawn_kill [("main", newSessionStarted "main" "/repo" "Main")]
      "main" "/repo" "Main" true).2.2.2.2
      (newSessionStarted "main" "/repo" "Main") rfl).2⟩

/-! ## RingBuffer (`internal/pty/session.go`) -/

/-- `RingBuffer`: fixed-size circular buffer; bytes are modelled as `Nat`
values. -/
structure RingBuffer where
  data : List Nat
  size : Nat
  start : Nat
  len : Nat
  deriving Repr, DecidableEq

/-- `NewRingBuffer`. -/
def newRingBuffer (size : Nat) : RingBuffer :=
  { data := List.replicate size 0, size := size, start := 0, len := 0 }

/-- The body of `Write`'s loop for a single byte `b`. -/
def RingBuffer.writeByte (r : RingBuffer) (b : Nat) : RingBuffer :=
  let pos := (r.start + r.len) % r.size
  let d := r.data.set pos b
  if r.len < r.size then
    { r with data := d, len := r.len + 1 }
  else
    { r with data := d, start := (r.start + 1) % r.size }

/-- `RingBuffer.Write`: folds the bytes of `p` into the buffer and returns
`(len(p), nil)`. -/
def RingBuffer.write (r : RingBuffer) (p : List Nat) :
    RingBuffer × Nat × Option String :=
  (p.foldl RingBuffer.writeByte r, p.length, none)

/-- `RingBuffer.Bytes`: the `len` bytes starting at `start`, in ring
order. -/
def RingBuffer.bytes (r : RingBuffer) : List Nat :=
  (List.range r.len).map (fun i => r.data.getD ((r.start + i) % r.size) 0)

/-- The suffix of `l` consisting of its last `min n l.length` elements. -/
def lastN (n : Nat) (l : List Nat) : List Nat :=
  l.drop (l.length - n)

theorem lastN_of_le {n : Nat} {l : List Nat} (h : l.length ≤ n) : lastN n l = l := by
  unfold lastN
  rw [Nat.sub_eq_zero_of_le h, List.drop_zero]

theorem lastN_append_of_le {n : Nat} (a z : List Nat) (h : n ≤ z.length) :
    lastN n (a ++ z) = lastN n z := by
  unfold lastN
  rw [List.length_append, List.drop_append_eq_append_drop,
    List.drop_eq_nil_of_le (by omega : a.length ≤ a.length + z.length - n)]
  have h2 : a.length + z.length - n - a.length = z.length - n := by omega
  rw [h2, List.nil_append]

theorem lastN_lastN_append (n : Nat) (x y : List Nat) :
    lastN n (lastN n x ++ y) = lastN n (x ++ y) := by
  by_cases h : x.length ≤ n
  · rw [lastN_of_le h]
  · have hx : x = x.take (x.length - n) ++ lastN n x :=
      (List.take_append_drop _ x).symm
    have hlen : (lastN n x).length = n := by
      unfold lastN
      rw [List.length_drop]
      omega
    have hr : lastN n (x ++ y) = lastN n (lastN n x ++ y) := by
      conv_lhs => rw [hx, List.append_assoc]
      exact lastN_append_of_le _ _ (by rw [List.length_append]; omega)
    rw [hr]

theorem modadd_inj {size start i j : Nat} (hs : start < size) (hi : i < size)
    (hj : j < size) (h : (start + i) % size = (start + j) % size) : i = j := by
  have h2 := Nat.ModEq.add_left_cancel' start h
  rwa [Nat.ModEq, Nat.mod_eq_of_lt hi, Nat.mod_eq_of_lt hj] at h2

theorem length_bytes (r : RingBuffer) : r.bytes.length = r.len := by
  unfold RingBuffer.bytes
  rw [List.length_map, List.length_range]

/-- One `writeByte` step preserves the buffer invariant and appends the byte
to the abstract contents, keeping only the last `size` bytes. -/
theorem writeByte_spec (r : RingBuffer) (b : Nat) (hd : r.data.length = r.size)
    (hs : r.start < r.size) (hl : r.len ≤ r.size) :
    (r.writeByte b).data.length = r.size
    ∧ (r.writeByte b).size = r.size
    ∧ (r.writeByte b).start < r.size
    ∧ (r.writeByte b).len ≤ r.size
    ∧ (r.writeByte b).bytes = lastN r.size (r.bytes ++ [b]) := by
  have hsz : 0 < r.size := Nat.lt_of_le_of_lt (Nat.zero_le _) hs
  by_cases hlt : r.len < r.size
  · have he : r.writeByte b
        = { r with
            data := r.data.set ((r.start + r.len) % r.size) b,
            len := r.len + 1 } := by
      unfold RingBuffer.writeByte
      rw [if_pos hlt]
    rw [he]
    refine ⟨by rw [List.length_set]; exact hd, rfl, hs,
      by show r.len + 1 ≤ r.size; omega, ?_⟩
    have hlast : lastN r.size (r.bytes ++ [b]) = r.bytes ++ [b] := by
      apply lastN_of_le
      rw [List.length_append, length_bytes]
      simp only [List.length_singleton]
      omega
    rw [hlast]
    show (List.range (r.len + 1)).map
        (fun i => (r.data.set ((r.start + r.len) % r.size) b).getD
          ((r.start + i) % r.size) 0) = _
    rw [List.range_succ r.len, List.map_append]
    congr 1
    · apply List.map_congr_left
      intro i hi
      have hi' : i < r.len := List.mem_range.mp hi
      have hne : (r.start + r.len) % r.size ≠ (r.start + i) % r.size := by
        intro hcontra
        have := modadd_inj hs hlt (by omega) hcontra
        omega
      rw [List.getD_eq_getElem?_getD, List.getElem?_set_ne hne,
        ← List.getD_eq_getElem?_getD]
    · show [_] = [_]
      congr 1
      show (r.data.set ((r.start + r.len) % r.size) b).getD
        ((r.start + r.len) % r.size) 0 = b
      have hpos : (r.start + r.len) % r.size < r.data.length := by
        rw [hd]
        exact Nat.mod_lt _ hsz
      rw [List.getD_eq_getElem?_getD, List.getElem?_set_self hpos]
      rfl
  · have hlen : r.len = r.size := Nat.le_antisymm hl (Nat.le_of_not_lt hlt)
    have hpos0 : (r.start + r.len) % r.size = r.start := by
      rw [hlen, Nat.add_mod_right, Nat.mod_eq_of_lt hs]
    have he : r.writeByte b
        = { r with
            data := r.data.set r.start b,
            start := (r.start + 1) % r.size } := by
      unfold RingBuffer.writeByte
      rw [if_neg hlt, hpos0]
    rw [he]
    refine ⟨by rw [List.length_set]; exact hd, rfl, Nat.mod_lt _ hsz, hl, ?_⟩
    have hrlen : (r.bytes ++ [b]).length = r.size + 1 := by
      rw [List.length_append, length_bytes, hlen]
      rfl
    have hrhs : lastN r.size (r.bytes ++ [b]) = r.bytes.drop 1 ++ [b] := by
      unfold lastN
      rw [hrlen, (by omega : r.size + 1 - r.size = 1),
        List.drop_append_eq_append_drop,
        (by rw [length_bytes]; omega : 1 - r.bytes.length = 0), List.drop_zero]
    rw [hrhs]
    apply List.ext_getElem?
    intro j
    show ((List.range r.len).map
        (fun i => (r.data.set r.start b).getD
          (((r.start + 1) % r.size + i) % r.size) 0))[j]? = _
    have hidx : ∀ i : Nat, ((r.start + 1) % r.size + i) % r.size
        = (r.start + (1 + i)) % r.size := by
      intro i
      rw [Nat.mod_add_mod, Nat.add_assoc]
    by_cases hj : j < r.size
    · rw [List.getElem?_map, List.getElem?_range (by omega : j < r.len)]
      by_cases hj1 : j < r.size - 1
      · have hne : r.start ≠ (r.start + (1 + j)) % r.size := by
          intro hcontra
          have h0 : (r.start + 0) % r.size = (r.start + (1 + j)) % r.size := by
            rw [Nat.add_zero, Nat.mod_eq_of_lt hs]
            exact hcontra
          have := modadd_inj hs hsz (by omega : 1 + j < r.size) h0
          omega
        simp only [Option.map_some']
        rw [hidx j, List.getD_eq_getElem?_getD,
          List.getElem?_set_ne hne, ← List.getD_eq_getElem?_getD]
        have hrb : (r.bytes.drop 1 ++ [b])[j]? = r.bytes[1 + j]? := by
          rw [List.getElem?_append_left
              (by rw [List.length_drop, length_bytes]; omega),
            List.getElem?_drop]
        rw [hrb]
        show _ = ((List.range r.len).map
          (fun i => r.data.getD ((r.start + i) % r.size) 0))[1 + j]?
        rw [List.getElem?_map, List.getElem?_range (by omega : 1 + j < r.len)]
        simp only [Option.map_some']
      · have hj2 : j = r.size - 1 := by omega
        have hidx2 : (r.start + (1 + j)) % r.size = r.start := by
          rw [(by omega : 1 + j = r.size), Nat.add_mod_right,
            Nat.mod_eq_of_lt hs]
        simp only [Option.map_some']
        rw [hidx j, hidx2, List.getD_eq_getElem?_getD,
          List.getElem?_set_self (by rw [hd]; exact hs)]
        have hrb : (r.bytes.drop 1 ++ [b])[j]? = some b := by
          rw [List.getElem?_append_right
              (by rw [List.length_drop, length_bytes]; omega)]
          rw [List.length_drop, length_bytes, hlen,
            (by omega : j - (r.size - 1) = 0)]
          rfl
        rw [hrb]
        rfl
    · rw [List.getElem?_eq_none
          (by rw [List.length_map, List.length_range]; omega),
        List.getElem?_eq_none
          (by rw [List.length_append, List.length_drop, length_bytes, hlen]
              simp only [List.length_singleton]
              omega)]

/-- Folding a byte sequence into a valid buffer leaves the abstract contents
equal to the last `size` bytes of the old contents plus the sequence. -/
theorem foldl_writeByte_spec (l : List Nat) :
    ∀ r : RingBuffer, r.data.length = r.size → r.start < r.size →
      r.len ≤ r.size →
      (l.foldl RingBuffer.writeByte r).data.length = r.size
      ∧ (l.foldl RingBuffer.writeByte r).size = r.size
      ∧ (l.foldl RingBuffer.writeByte r).start < r.size
      ∧ (l.foldl RingBuffer.writeByte r).len ≤ r.size
      ∧ (l.foldl RingBuffer.writeByte r).bytes = lastN r.size (r.bytes ++ l) := by
  induction l with
  | nil =>
      intro r hd hs hl
      refine ⟨hd, rfl, hs, hl, ?_⟩
      rw [List.foldl_nil, List.append_nil,
        lastN_of_le (by rw [length_bytes]; exact hl)]
  | cons b l ih =>
      intro r hd hs hl
      rw [List.foldl_cons]
      obtain ⟨h1, h2, h3, h4, h5⟩ := writeByte_spec r b hd hs hl
      obtain ⟨g1, g2, g3, g4, g5⟩ :=
        ih (r.writeByte b) (by rw [h1, h2]) (by rw [h2]; exact h3)
          (by rw [h2]; exact h4)
      rw [h2] at g1 g2 g3 g4 g5
      refine ⟨g1, g2, g3, g4, ?_⟩
      rw [g5, h5, lastN_lastN_append, List.append_assoc, List.singleton_append]

/-- C10: for every capacity `c > 0` and every finite sequence of `Write`
calls, each `Write` returns `(len(p), nil)`, and `Bytes` afterwards returns
exactly the last `min (total bytes written) c` bytes of the concatenation of
all written data, in write order (`lastN c` is that suffix, as the final
length conjunct makes explicit). -/
theorem ringBuffer_write_bytes (c : Nat) (hc : 0 < c) (ws : List (List Nat)) :
    (∀ (r : RingBuffer) (p : List Nat),
        (r.write p).2.1 = p.length ∧ (r.write p).2.2 = none)
    ∧ (ws.foldl (fun r p => (r.write p).1) (newRingBuffer c)).bytes
        = lastN c ws.flatten
    ∧ (lastN c ws.flatten).length = min ws.flatten.length c := by
  refine ⟨fun r p => ⟨rfl, rfl⟩, ?_, ?_⟩
  · have hfold : ws.foldl (fun r p => (r.write p).1) (newRingBuffer c)
        = ws.flatten.foldl RingBuffer.writeByte (newRingBuffer c) := by
      rw [List.foldl_flatten]
      rfl
    rw [hfold]
    have hinv := foldl_writeByte_spec ws.flatten (newRingBuffer c)
      (show (List.replicate c 0).length = c from List.length_replicate c 0)
      hc (Nat.zero_le c)
    rw [hinv.2.2.2.2]
    show lastN c (RingBuffer.bytes (newRingBuffer c) ++ ws.flatten) = _
    have hb : RingBuffer.bytes (newRingBuffer c) = [] := rfl
    rw [hb, List.nil_append]
  · unfold lastN
    rw [List.length_drop]
    omega

/-- C10 witness: capacity 3, writes `[1,2]` then `[3,4,5,6]`; the buffer
afterwards holds exactly the last three bytes `[4,5,6]`. -/
theorem ringBuffer_write_bytes_witness :
    (0 < 3)
    ∧ ([[1, 2], [3, 4, 5, 6]].foldl (fun r p => (r.write p).1)
        (newRingBuffer 3)).bytes = lastN 3 [[1, 2], [3, 4, 5, 6]].flatten
    ∧ ([[1, 2], [3, 4, 5, 6]].foldl (fun r p => (r.write p).1)
        (newRingBuffer 3)).bytes = [4, 5, 6] :=
  ⟨by decide,
   (ringBuffer_write_bytes 3 (by decide) [[1, 2], [3, 4, 5, 6]]).2.1,
   by decide⟩

/-! ## JSON serialization (`encoding/json` as used by `State.Save` and
`LoadState`)

The serialized form is modelled at the JSON document level: `Save` marshals
the state to a `Json` value (and `Json.render` below gives the byte-level
text for the persistence model), `LoadState` unmarshals it back.  The
decoder follows Go `Unmarshal` semantics for the struct types involved: an
absent field keeps its zero value, a JSON `null` yields a nil map / slice /
pointer, and a present field of the wrong shape is an error. -/

inductive Json
  | null
  | bool (b : Bool)
  | num (n : Int)
  | str (s : String)
  | arr (elems : List Json)
  | obj (fields : List (String × Json))

/-- Marshalling of `Agent`: struct fields in declaration order; `mergedAt`
is omitted when nil (`omitempty`). -/
def encodeAgent (a : Agent) : Json :=
  .obj ([("id", .str a.id), ("branch", .str a.branch),
         ("worktree", .str a.worktree), ("task", .str a.task),
         ("status", .str a.status), ("baseBranch", .str a.baseBranch),
         ("baseCommit", .str a.baseCommit), ("createdAt", .num a.createdAt)]
    ++ (match a.mergedAt with
        | none => []
        | some t => [("mergedAt", .num t)]))

/-- Marshalling of `MergeRecord`. -/
def encodeMergeRecord (m : MergeRecord) : Json :=
  .obj [("agentId", .str m.agentId), ("mergedAt", .num m.mergedAt),
        ("mergeCommit", .str m.mergeCommit),
        ("conflictsResolved", .num m.conflictsResolved),
        ("conflictsEscalated", .num m.conflictsEscalated)]

/-- Marshalling of `State`. -/
def encodeState (s : State) : Json :=
  .obj [("version", .str s.version), ("repoRoot", .str s.repoRoot),
        ("worktreeDir", .str s.worktreeDir),
        ("agents", .obj (s.agents.map (fun kv => (kv.1, encodeAgent kv.2)))),
        ("mergeHistory", .arr (s.mergeHistory.map encodeMergeRecord))]

/-- Object field lookup (`Unmarshal` matches fields by JSON tag). -/
def jlookup (fields : List (String × Json)) (key : String) : Option Json :=
  (fields.find? (fun kv => kv.1 == key)).map Prod.snd

def Json.asStr : Json → Option String
  | .str s => some s
  | _ => none

def Json.asNat : Json → Option Nat
  | .num n => if 0 ≤ n then some n.toNat else none
  | _ => none

def Json.asInt : Json → Option Int
  | .num n => some n
  | _ => none

/-- A field that unmarshals into a non-pointer target: missing key keeps the
zero value `z`, a present value must have the right shape. -/
def decodeField {α : Type} (fields : List (String × Json)) (key : String)
    (z : α) (conv : Json → Option α) : Option α :=
  match jlookup fields key with
  | none => some z
  | some v => conv v

/-- Unmarshalling of `Agent`. -/
def decodeAgent (j : Json) : Option Agent :=
  match j with
  | .obj fields => do
      let id ← decodeField fields "id" "" Json.asStr
      let branch ← decodeField fields "branch" "" Json.asStr
      let worktree ← decodeField fields "worktree" "" Json.asStr
      let task ← decodeField fields "task" "" Json.asStr
      let status ← decodeField fields "status" "" Json.asStr
      let baseBranch ← decodeField fields "baseBranch" "" Json.asStr
      let baseCommit ← decodeField fields "baseCommit" "" Json.asStr
      let createdAt ← decodeField fields "createdAt" 0 Json.asNat
      let mergedAt ← decodeField fields "mergedAt" none
        (fun v => match v with
          | .null => some none
          | v => v.asNat.map some)
      pure { id := id, branch := branch, worktree := worktree, task := task
             status := status, baseBranch := baseBranch
             baseCommit := baseCommit, createdAt := createdAt
             mergedAt := mergedAt }
  | _ => none

/-- Unmarshalling of `MergeRecord`. -/
def decodeMergeRecord (j : Json) : Option MergeRecord :=
  match j with
  | .obj fields => do
      let agentId ← decodeField fields "agentId" "" Json.asStr
      let mergedAt ← decodeField fields "mergedAt" 0 Json.asNat
      let mergeCommit ← decodeField fields "mergeCommit" "" Json.asStr
      let cr ← decodeField fields "conflictsResolved" 0 Json.asInt
      let ce ← decodeField fields "conflictsEscalated" 0 Json.asInt
      pure { agentId := agentId, mergedAt := mergedAt
             mergeCommit := mergeCommit, conflictsResolved := cr
             conflictsEscalated := ce }
  | _ => none

/-- Elementwise unmarshalling of the agents object. -/
def decodeAgentEntries : List (String × Json) → Option (List (String × Agent))
  | [] => some []
  | kv :: rest => do
      let a ← decodeAgent kv.2
      let rest' ← decodeAgentEntries rest
      pure ((kv.1, a) :: rest')

/-- Elementwise unmarshalling of the merge-history array. -/
def decodeRecords : List Json → Option (List MergeRecord)
  | [] => some []
  | j :: rest => do
      let m ← decodeMergeRecord j
      let rest' ← decodeRecords rest
      pure (m :: rest')

/-- Unmarshalling of `State` with `LoadState`'s nil-map normalization: a
missing or null agents map becomes the empty map. -/
def decodeState (j : Json) : Option State :=
  match j with
  | .obj fields => do
      let version ← decodeField fields "version" "" Json.asStr
      let repoRoot ← decodeField fields "repoRoot" "" Json.asStr
      let worktreeDir ← decodeField fields "worktreeDir" "" Json.asStr
      let agents ← decodeField fields "agents" []
        (fun v => match v with
          | .null => some []
          | .obj kvs => decodeAgentEntries kvs
          | _ => none)
      let mergeHistory ← decodeField fields "mergeHistory" []
        (fun v => match v with
          | .null => some []
          | .arr elems => decodeRecords elems
          | _ => none)
      pure { version := version, repoRoot := repoRoot
             worktreeDir := worktreeDir, agents := agents
             mergeHistory := mergeHistory }
  | _ => none

/-! ### C7: round trip -/

theorem decodeAgent_encodeAgent (a : Agent) : decodeAgent (encodeAgent a) = some a := by
  obtain ⟨id, branch, worktree, task, status, bb, bc, ca, ma⟩ := a
  cases ma with
  | none =>
      simp [decodeAgent, encodeAgent, decodeField, jlookup, List.find?,
        Json.asStr, Json.asNat]
  | some t =>
      simp [decodeAgent, encodeAgent, decodeField, jlookup, List.find?,
        Json.asStr, Json.asNat]

theorem decodeMergeRecord_encodeMergeRecord (m : MergeRecord) :
    decodeMergeRecord (encodeMergeRecord m) = some m := by
  obtain ⟨aid, ma, mc, cr, ce⟩ := m
  simp [decodeMergeRecord, encodeMergeRecord, decodeField, jlookup,
    List.find?, Json.asStr, Json.asNat, Json.asInt]

theorem decodeAgentEntries_encode (l : List (String × Agent)) :
    decodeAgentEntries (l.map (fun kv => (kv.1, encodeAgent kv.2))) = some l := by
  induction l with
  | nil => rfl
  | cons kv rest ih =>
      rw [List.map_cons]
      simp [decodeAgentEntries, decodeAgent_encodeAgent, ih]

theorem decodeRecords_encode (l : List MergeRecord) :
    decodeRecords (l.map encodeMergeRecord) = some l := by
  induction l with
  | nil => rfl
  | cons m rest ih =>
      rw [List.map_cons]
      simp [decodeRecords, decodeMergeRecord_encodeMergeRecord, ih]

/-- C7: for every state — any agents with any mix of present and absent
`mergedAt` fields and any merge history, with the agent map's keys unique as
in any Go map — marshalling the state and unmarshalling it back yields a
structurally identical state: same agents field-for-field (including the
optional timestamp's presence or absence) and the same merge records in the
same order. -/
theorem state_save_load_round_trip (s : State)
    (hkeys : (s.agents.map Prod.fst).Nodup) :
    decodeState (encodeState s) = some s := by
  obtain ⟨version, repoRoot, worktreeDir, agents, mergeHistory⟩ := s
  simp [decodeState, encodeState, decodeField, jlookup, List.find?,
    Json.asStr, decodeAgentEntries_encode, decodeRecords_encode]

/-- C7 witness: a state with two agents — one merged with a timestamp, one
running without — and one merge record survives the round trip. -/
theorem state_save_load_round_trip_witness :
    (([("cwt-20260101-aaaa", agentRunning), ("cwt-20260101-bbbb", agentMerged)].map
        Prod.fst).Nodup)
    ∧ decodeState (encodeState
        { version := "1.0", repoRoot := "/repo", worktreeDir := ".worktrees"
          agents := [("cwt-20260101-aaaa", agentRunning),
                     ("cwt-20260101-bbbb", agentMerged)]
          mergeHistory := [{ agentId := "cwt-20260101-bbbb", mergedAt := 42
                             mergeCommit := "abc123", conflictsResolved := 1
                             conflictsEscalated := 0 }] })
      = some
        { version := "1.0", repoRoot := "/repo", worktreeDir := ".worktrees"
          agents := [("cwt-20260101-aaaa", agentRunning),
                     ("cwt-20260101-bbbb", agentMerged)]
          mergeHistory := [{ agentId := "cwt-20260101-bbbb", mergedAt := 42
                             mergeCommit := "abc123", conflictsResolved := 1
                             conflictsEscalated := 0 }] } :=
  ⟨by decide,
   state_save_load_round_trip
     { version := "1.0", repoRoot := "/repo", worktreeDir := ".worktrees"
       agents := [("cwt-20260101-aaaa", agentRunning),
                  ("cwt-20260101-bbbb", agentMerged)]
       mergeHistory := [{ agentId := "cwt-20260101-bbbb", mergedAt := 42
                          mergeCommit := "abc123", conflictsResolved := 1
                          conflictsEscalated := 0 }] }
     (by decide)⟩

/-! ## Persistence model (`State.Save`, `StateFilePath`, `os` calls)

`State.Save` makes the containing directory and then calls `os.WriteFile`
on the state file directly.  `os.WriteFile` truncates the target and writes
the new bytes in place, so a write failing midway leaves the file holding a
proper front part of the new content — there is no write-to-temp / rename
step anywhere in `Save`.  The filesystem is modelled as the set of created
directories plus a map from path to byte content; escaping of special
characters inside rendered JSON strings is not modelled (it plays no role in
the claims). -/

/-- Textual rendering of a JSON document (`json.MarshalIndent` additionally
inserts whitespace). -/
def Json.render : Json → String
  | .null => "null"
  | .bool b => if b then "true" else "false"
  | .num n => toString n
  | .str s => "\"" ++ s ++ "\""
  | .arr elems => "[" ++ String.intercalate ","
      (elems.attach.map (fun e => Json.render e.1)) ++ "]"
  | .obj fields => "\x7b" ++ String.intercalate ","
      (fields.attach.map
        (fun kv => "\"" ++ kv.1.1 ++ "\":" ++ Json.render kv.1.2)) ++ "\x7d"
termination_by j => sizeOf j
decreasing_by
  · have h := List.sizeOf_lt_of_mem e.2
    simp only [Json.arr.sizeOf_spec]
    omega
  · obtain ⟨⟨k, v⟩, hkv⟩ := kv
    have h := List.sizeOf_lt_of_mem hkv
    simp only [Prod.mk.sizeOf_spec] at h
    simp only [Json.obj.sizeOf_spec]
    omega

/-- `StateFilePath`: `<repoRoot>/.cwt/state.json`. -/
def stateFilePath (repoRoot : String) : String :=
  repoRoot ++ "/.cwt/state.json"

/-- Filesystem operations relevant to `Save`. -/
inductive FsOp
  | mkdirAll (dir : String)
  | writeFile (path : String) (content : String)
  | rename (src dst : String)
  deriving Repr, DecidableEq

/-- A filesystem: created directories and file contents by path. -/
structure Fs where
  dirs : List String
  files : String → Option (List Char)

/-- Effect of one completed filesystem operation. -/
def runOp (fs : Fs) (op : FsOp) : Fs :=
  match op with
  | .mkdirAll d => { fs with dirs := d :: fs.dirs }
  | .writeFile p c =>
      { fs with files := fun q => if q = p then some c.data else fs.files q }
  | .rename src dst =>
      { fs with files := fun q =>
          if q = dst then fs.files src
          else if q = src then none
          else fs.files q }

def runOps (fs : Fs) (ops : List FsOp) : Fs :=
  ops.foldl runOp fs

/-- Effect of running `ops` when operation number `i` fails: the first `i`
operations complete; a failing `mkdirAll` or `rename` changes nothing, but a
failing `writeFile` has already truncated the target and leaves only the
first `k` bytes of the new content in place. -/
def runOpsInterrupted (fs : Fs) (ops : List FsOp) (i k : Nat) : Fs :=
  match ops, i with
  | [], _ => fs
  | op :: rest, Nat.succ i' => runOpsInterrupted (runOp fs op) rest i' k
  | .mkdirAll _ :: _, 0 => fs
  | .writeFile p c :: _, 0 =>
      { fs with files := fun q =>
          if q = p then some (c.data.take k) else fs.files q }
  | .rename _ _ :: _, 0 => fs

/-- The filesystem operations `State.Save` performs, in order: make the
`.cwt` directory, then write the marshalled state directly to the state
file. -/
def State.saveOps (s : State) : List FsOp :=
  [.mkdirAll (s.repoRoot ++ "/.cwt"),
   .writeFile (stateFilePath s.repoRoot) (Json.render (encodeState s))]

theorem render_obj_length_pos (fields : List (String × Json)) :
    0 < ((Json.obj fields).render).length := by
  unfold Json.render
  rw [String.length_append]
  have h1 : ("\x7d" : String).length = 1 := rfl
  omega

theorem render_encodeState_data_ne_nil (s : State) :
    (Json.render (encodeState s)).data ≠ [] := by
  intro h
  have h2 : 0 < (Json.render (encodeState s)).length := by
    show 0 < (Json.render (Json.obj _)).length
    exact render_obj_length_pos _
  have h3 : (Json.render (encodeState s)).length
      = (Json.render (encodeState s)).data.length := rfl
  rw [h3, h] at h2
  simp at h2

/-! ### C1: save atomicity -/

/-- C1 (counterexample): `Save` writes the state file in place, so a save
whose `os.WriteFile` step fails after 0 bytes leaves the state file empty —
the previously valid content `OLD` is gone, and the file holds neither the
old nor the full new serialized state.  This refutes "after any failed save
the file still contains the previously valid complete state". -/
theorem save_not_atomic :
    ((runOpsInterrupted
        { dirs := ["/repo/.cwt"]
          files := fun q =>
            if q = stateFilePath "/repo" then some "OLD".data else none }
        (newState "/repo").saveOps 1 0).files (stateFilePath "/repo")
      = some ([] : List Char))
    ∧ some ([] : List Char) ≠ some "OLD".data
    ∧ some ([] : List Char)
        ≠ some (Json.render (encodeState (newState "/repo"))).data := by
  refine ⟨rfl, by decide, ?_⟩
  intro h
  exact render_encodeState_data_ne_nil (newState "/repo")
    (Option.some.inj h).symm

/-- C1 (amended): `Save` creates the missing containing directory and writes
the full serialized state directly to the state file, replacing any prior
contents.  Every write it performs targets the final state-file path and no
rename occurs, so there is no write-to-temp-then-rename step and — per the
counterexample — a failed write can leave the file partially overwritten. -/
theorem save_writes_full_state (s : State) (fs : Fs) :
    ((runOps fs s.saveOps).files (stateFilePath s.repoRoot)
        = some (Json.render (encodeState s)).data)
    ∧ (s.repoRoot ++ "/.cwt") ∈ (runOps fs s.saveOps).dirs
    ∧ (∀ p c, FsOp.writeFile p c ∈ s.saveOps →
        p = stateFilePath s.repoRoot ∧ c = Json.render (encodeState s))
    ∧ (∀ src dst, FsOp.rename src dst ∉ s.saveOps) := by
  refine ⟨?_, ?_, ?_, ?_⟩
  · simp [runOps, State.saveOps, runOp]
  · simp [runOps, State.saveOps, runOp]
  · intro p c hmem
    simp [State.saveOps] at hmem
    exact hmem
  · intro src dst hmem
    simp [State.saveOps] at hmem

end CWT
